import Mathlib

/-!
Verification of the claude-wg plan-review state model.

Shallow embedding of the core state logic of `src/daemon/cli.py`,
`src/daemon/daemon.py` and `src/daemon/state.py`:
the thread/channel data model, `parse_sections`, `find_conflicts`,
the daemon `handle_message` / `handle_reaction` event handlers, and the
`cmd_reply` / `cmd_approve` / `cmd_sync` / `cmd_bootstrap` state updates.

Python dicts holding thread records are modelled as association lists in
insertion order (matching CPython dict semantics: updating an existing key
keeps its position, a new key is appended).  The wall clock (`now_iso()`)
is passed in as an explicit `now : String` argument.  Slack transport
calls are external: message ids (`ts`) produced by Slack are inputs.
String-keyed JSON fields keep their source names; `status` and the
feedback `type` tag keep their Python string values (`"open"`,
`"awaiting_feedback"`, `"approved"`, `"feedback"`, `"revision"`).
-/

namespace ClaudeWg

/-- One entry of a thread's `plan_versions` history.
`ts` is present only on entries appended by `cmd_reply` (which stores the
Slack timestamp of the revision reply); entries written by the daemon and
by bootstrap have no `ts` key, modelled as `none`. -/
structure PlanVersion where
  version : Nat
  text : String
  posted_at : String
  ts : Option String := none
  deriving DecidableEq, Repr

/-- One entry of a thread's `feedback` history (daemon `handle_message`,
`cmd_bootstrap`).  The Python key `"type"` holds `"feedback"` or
`"revision"`. -/
structure FeedbackEntry where
  user : String
  ts : String
  text : String
  received_at : String
  type : String
  deriving DecidableEq, Repr

/-- A thread record, per the JSON dicts built in `cli.py` / `daemon.py`.
`owner` is `none` when the Python value is `null` (placeholder threads).
`latest_reply_ts` is set only by `cmd_reply`.  The optional `sections` /
`section_index` fields of multi-section plans are not needed by any of
the operations verified here and are omitted. -/
structure Thread where
  owner : Option String
  ts : String
  version : Nat
  status : String
  approved : Bool
  approved_by : Option String
  files : List String
  plan_versions : List PlanVersion
  feedback : List FeedbackEntry
  latest_reply_ts : Option String := none
  deriving DecidableEq, Repr

/-- Per-channel state record (`load_channel_state` / `save_channel_state`).
`threads` is the Python dict `state["threads"]`, kept in insertion order. -/
structure ChannelState where
  channel_id : String
  channel_name : String
  created_by : Option String
  collaborators : List String
  threads : List (String × Thread)
  deriving DecidableEq, Repr

/-- Python `d.get(k)` / `k in d` on the threads dict: first (unique) binding. -/
def wgLookup : List (String × Thread) → String → Option Thread
  | [], _ => none
  | (k', v) :: rest, k => if k' = k then some v else wgLookup rest k

/-- Python `d[k] = v` on the threads dict: replace in place, or append a new key
(CPython insertion-order semantics). -/
def wgInsert : List (String × Thread) → String → Thread → List (String × Thread)
  | [], k, v => [(k, v)]
  | (k', v') :: rest, k, v =>
      if k' = k then (k, v) :: rest else (k', v') :: wgInsert rest k v

/-- A top-level Slack message (or a threaded reply) as consumed by the
daemon and by `cmd_bootstrap`: timestamp id, author, text. -/
structure SlackMessage where
  ts : String
  user : String
  text : String
  deriving DecidableEq, Repr

/-! ## Daemon event handlers (`daemon.py`) -/

/-- The thread record built by `handle_message` for a top-level message
(`daemon.py` lines 96-110). -/
def newThreadFromMessage (ts user text now : String) : Thread :=
  { owner := some user
    ts := ts
    version := 1
    status := "open"
    approved := false
    approved_by := none
    files := []
    plan_versions := [{ version := 1, text := text, posted_at := now }]
    feedback := [] }

/-- The placeholder thread `handle_message` synthesizes for a reply whose
`thread_ts` is unknown (`daemon.py` lines 124-136): `owner=None`,
`version=1`, `status="open"`, empty histories. -/
def placeholderThread (thread_ts : String) : Thread :=
  { owner := none
    ts := thread_ts
    version := 1
    status := "open"
    approved := false
    approved_by := none
    files := []
    plan_versions := []
    feedback := [] }

/-- The reply-classification block of `handle_message`
(`daemon.py` lines 138-158): if the replier equals the thread owner the
entry is a `"revision"` (version bump + `plan_versions` append),
otherwise a `"feedback"` entry; either way the entry is appended to
`feedback`.  `user == thread.get("owner")` holds exactly when
`thread.owner = some user`. -/
def classifyAndAppend (thread : Thread) (user ts text now : String) : Thread :=
  if thread.owner = some user then
    let newVersion := thread.version + 1
    { thread with
      version := newVersion
      plan_versions :=
        thread.plan_versions ++ [{ version := newVersion, text := text, posted_at := now }]
      feedback :=
        thread.feedback ++ [{ user := user, ts := ts, text := text,
                              received_at := now, type := "revision" }] }
  else
    { thread with
      feedback :=
        thread.feedback ++ [{ user := user, ts := ts, text := text,
                              received_at := now, type := "feedback" }] }

/-- The `handle_message` branch for a top-level message (no `thread_ts`): the thread
dict entry at `ts` is assigned unconditionally. -/
def handleMessageTopLevel (s : ChannelState) (ts user text now : String) : ChannelState :=
  { s with threads := wgInsert s.threads ts (newThreadFromMessage ts user text now) }

/-- The `handle_message` branch for a threaded reply (`daemon.py` lines 120-159):
look up the parent thread, synthesizing a placeholder when absent, then
classify and append the reply. -/
def handleMessageReply (s : ChannelState) (thread_ts ts user text now : String) : ChannelState :=
  let thread :=
    match wgLookup s.threads thread_ts with
    | some t => t
    | none => placeholderThread thread_ts
  { s with threads := wgInsert s.threads thread_ts (classifyAndAppend thread user ts text now) }

/-- The `handle_reaction` thread-matching test (`daemon.py` line 194):
the reacted-on message id is the thread anchor or the id of one of the
thread's feedback entries. -/
def threadMatches (item_ts : String) (p : String × Thread) : Bool :=
  p.1 == item_ts || p.2.feedback.any (fun f => f.ts == item_ts)

/-- Body of `handle_reaction` (`daemon.py` lines 192-208): the scan stops
at the first thread matching the reacted-on id (the loop `break`s whether
or not the owner check passes); only a thread owned by the local operator
is marked approved. -/
def handleReactionCore (s : ChannelState) (item_ts reactor myUserId : String) : ChannelState :=
  match s.threads.find? (threadMatches item_ts) with
  | none => s
  | some (k, t) =>
      if t.owner = some myUserId then
        let t' : Thread :=
          { t with approved := true, approved_by := some reactor, status := "approved" }
        { s with threads := wgInsert s.threads k t' }
      else s

/-- Full `handle_reaction` (`daemon.py` lines 174-208) including the reaction
filter: only `white_check_mark` reactions are processed. -/
def handleReaction (s : ChannelState) (reaction item_ts reactor myUserId : String) :
    ChannelState :=
  if reaction = "white_check_mark" then handleReactionCore s item_ts reactor myUserId else s

/-! ## Bootstrap reconciliation (`cmd_bootstrap`, `cli.py` lines 760-859) -/

/-- The thread record `cmd_bootstrap` creates for an unseen top-level
message (`cli.py` lines 797-810). -/
def bootstrapThread (msg : SlackMessage) (now : String) : Thread :=
  { owner := some msg.user
    ts := msg.ts
    version := 1
    status := "open"
    approved := false
    approved_by := none
    files := []
    plan_versions := [{ version := 1, text := msg.text, posted_at := now }]
    feedback := [] }

/-- Replay of one reply inside `cmd_bootstrap` (`cli.py` lines 832-853):
a reply authored by the top-level message's author (`reply_user == user`,
i.e. by the thread owner) is a `"revision"` with version bump and
`plan_versions` append, anything else a `"feedback"` entry. -/
def bootstrapApplyReply (author : String) (thread : Thread) (reply : SlackMessage)
    (now : String) : Thread :=
  if reply.user = author then
    let newVersion := thread.version + 1
    { thread with
      version := newVersion
      plan_versions :=
        thread.plan_versions ++ [{ version := newVersion, text := reply.text, posted_at := now }]
      feedback :=
        thread.feedback ++ [{ user := reply.user, ts := reply.ts, text := reply.text,
                              received_at := now, type := "revision" }] }
  else
    { thread with
      feedback :=
        thread.feedback ++ [{ user := reply.user, ts := reply.ts, text := reply.text,
                              received_at := now, type := "feedback" }] }

/-- One iteration of the `cmd_bootstrap` main loop (`cli.py` lines 788-853)
on the threads dict: a top-level message whose `ts` is already a known
thread is skipped entirely; otherwise a fresh thread is created and its
replies are replayed in order, the finished record landing at the end of
the dict (new-key append). -/
def reconcileMsg (threads : List (String × Thread))
    (item : SlackMessage × List SlackMessage) (now : String) : List (String × Thread) :=
  match wgLookup threads item.1.ts with
  | some _ => threads
  | none =>
      let t := item.2.foldl (fun th r => bootstrapApplyReply item.1.user th r now)
        (bootstrapThread item.1 now)
      threads ++ [(item.1.ts, t)]

/-- The whole `cmd_bootstrap` reconciliation pass over the fetched history
(each top-level message paired with its fetched replies, parent message
already removed as in `cli.py` line 824). -/
def reconcile (threads : List (String × Thread))
    (history : List (SlackMessage × List SlackMessage)) (now : String) :
    List (String × Thread) :=
  history.foldl (fun acc item => reconcileMsg acc item now) threads

/-! ## CLI commands (`cli.py`) -/

/-- The error taxonomy the CLI surfaces via `sys.exit(1)` with a message
(spec §7).  Only the variants the verified operations can produce are
modelled. -/
inductive CliError where
  | notFound
  | ambiguous
  deriving DecidableEq, Repr

/-- Resolution by `_resolve_thread` (`cli.py` lines 381-412) after the channel state has
been loaded: an explicit `thread_ts` must exist in the threads dict
(else NotFound); with no explicit `thread_ts` the unique thread owned by
`myUserId` is selected, erring when there is none (NotFound) or more than
one (Ambiguous). -/
def resolveThread (s : ChannelState) (thread_ts : Option String) (myUserId : String) :
    Except CliError String :=
  match thread_ts with
  | some ts =>
      match wgLookup s.threads ts with
      | some _ => .ok ts
      | none => .error .notFound
  | none =>
      match s.threads.filter (fun p => p.2.owner == some myUserId) with
      | [] => .error .notFound
      | [p] => .ok p.1
      | _ => .error .ambiguous

/-- The Python `{}` default of `state["threads"].get(thread_ts, {})` in
`cmd_reply` (`cli.py` line 516), materialized with the `.get` defaults
`cmd_reply` then uses (`version` defaults to 1, `plan_versions` to `[]`);
keys absent from the Python dict carry their JSON-absent equivalents. -/
def replyMissingThread : Thread :=
  { owner := none
    ts := ""
    version := 1
    status := ""
    approved := false
    approved_by := none
    files := []
    plan_versions := []
    feedback := [] }

/-- The thread update performed by `cmd_reply` (`cli.py` lines 516-542):
compute `version = old + 1`, replace `files` only when new ones were
supplied, append the `plan_versions` entry (which here carries the reply's
Slack `ts`), set `version`, `latest_reply_ts` and reset `status` to
`"awaiting_feedback"`.  `approved` / `approved_by` are not touched. -/
def cmdReplyThread (thread : Thread) (plan : String) (files : List String)
    (reply_ts now : String) : Thread :=
  let version := thread.version + 1
  let thread := if files = [] then thread else { thread with files := files }
  { thread with
    version := version
    plan_versions :=
      thread.plan_versions ++
        [{ version := version, text := plan, posted_at := now, ts := some reply_ts }]
    latest_reply_ts := some reply_ts
    status := "awaiting_feedback" }

/-- The state mutation of `cmd_reply` once channel state and `thread_ts`
are in hand (`cli.py` lines 516-543).  Note the `.get(thread_ts, {})`:
a missing thread id does NOT error — the update proceeds on the empty
dict and writes a synthesized entry back under `thread_ts`. -/
def cmdReplyCore (s : ChannelState) (thread_ts plan : String) (files : List String)
    (reply_ts now : String) : ChannelState :=
  let thread := (wgLookup s.threads thread_ts).getD replyMissingThread
  { s with threads := wgInsert s.threads thread_ts (cmdReplyThread thread plan files reply_ts now) }

/-- The `cmd_reply` command reached through the session link (no `--channel`,
`cli.py` lines 500-514 then 516-543): after the session file and channel
state load, there is no existence check on the session's `thread_ts`. -/
def cmdReplySession (state : Option ChannelState) (thread_ts plan : String)
    (files : List String) (reply_ts now : String) : Except CliError ChannelState :=
  match state with
  | none => .error .notFound
  | some s => .ok (cmdReplyCore s thread_ts plan files reply_ts now)

/-- The `cmd_reply` command reached with `--channel` and an explicit `--thread-ts`:
`_resolve_thread` surfaces NotFound before any mutation. -/
def cmdReplyResolved (s : ChannelState) (thread_ts : String) (myUserId plan : String)
    (files : List String) (reply_ts now : String) : Except CliError ChannelState :=
  match resolveThread s (some thread_ts) myUserId with
  | .error e => .error e
  | .ok ts => .ok (cmdReplyCore s ts plan files reply_ts now)

/-- The thread lookup of `cmd_sync` (`cli.py` lines 576-579): a missing
thread id is a terminal "Thread not found in state." error and the
command never mutates state. -/
def cmdSyncLookup (s : ChannelState) (thread_ts : String) : Except CliError Thread :=
  match wgLookup s.threads thread_ts with
  | some t => .ok t
  | none => .error .notFound

/-- Whole-plan approval by `cmd_approve` (`cli.py` lines 890-927, without
`--section-ts`): a missing thread id errors with no state change;
otherwise `approved=True`, `approved_by=<operator>`, `status="approved"`. -/
def cmdApproveCore (s : ChannelState) (thread_ts myUserId : String) :
    Except CliError ChannelState :=
  match wgLookup s.threads thread_ts with
  | none => .error .notFound
  | some t =>
      let t' : Thread :=
        { t with approved := true, approved_by := some myUserId, status := "approved" }
      .ok { s with threads := wgInsert s.threads thread_ts t' }

/-- The single-message thread record `_post_plan` builds when the plan has
no h1-h3 headings (`cli.py` lines 277-293), at version 1. -/
def postPlanThread (owner anchor_ts plan : String) (files : List String) (now : String) :
    Thread :=
  { owner := some owner
    ts := anchor_ts
    version := 1
    status := "awaiting_feedback"
    approved := false
    approved_by := none
    files := files
    plan_versions := [{ version := 1, text := plan, posted_at := now }]
    feedback := [] }

/-! ## Conflict detection (`find_conflicts`, `cli.py` lines 356-371) -/

/-- Python `sorted(set(a) & set(b))` on file-path lists: distinct common
elements in lexicographic order.  Python's `sorted` and the sort used
here agree because a sorted duplicate-free list of the intersection is
unique. -/
def sortedInter (as bs : List String) : List String :=
  ((as.filter (fun f => decide (f ∈ bs))).dedup).insertionSort (· ≤ ·)

/-- One inner-loop comparison of `find_conflicts`: against a later open
thread `p`, emit `(ts_a, p.1, sorted_overlap)` when the overlap is
non-empty. -/
def conflictEntry (ts_a : String) (t_a : Thread) (p : String × Thread) :
    Option (String × String × List String) :=
  let overlap := sortedInter t_a.files p.2.files
  if overlap = [] then none else some (ts_a, p.1, overlap)

/-- The double loop of `find_conflicts`: for each position `i` in the
open-thread list, compare against every later position. -/
def conflictsScan : List (String × Thread) → List (String × String × List String)
  | [] => []
  | (ts_a, t_a) :: rest => rest.filterMap (conflictEntry ts_a t_a) ++ conflictsScan rest

/-- The `find_conflicts` function (`cli.py` lines 356-371): restrict to threads whose
whole-plan `approved` flag is falsy, then pairwise scan. -/
def findConflicts (s : ChannelState) : List (String × String × List String) :=
  conflictsScan (s.threads.filter (fun p => p.2.approved = false))

/-! ## Section splitting (`parse_sections`, `cli.py` lines 174-203)

Strings are handled as their code-point sequences: Python's
`plan.split("\n")` is `List.splitOn '\n'` on the character list, and
`"\n".join(body)` is `List.intercalate ['\n']`. -/

/-- The whitespace class shared by the regex `\s` (on `str` patterns) and
`str.strip()`: CPython's `Py_UNICODE_ISSPACE`, i.e. exactly the code
points U+0009-U+000D, U+001C-U+001F, U+0020, U+0085 (NEL), U+00A0
(NO-BREAK SPACE), U+1680 (OGHAM SPACE MARK), U+2000-U+200A (typographic
spaces), U+2028 (LINE SEPARATOR), U+2029 (PARAGRAPH SEPARATOR), U+202F
(NARROW NO-BREAK SPACE), U+205F (MEDIUM MATHEMATICAL SPACE) and U+3000
(IDEOGRAPHIC SPACE). -/
def isPySpace (c : Char) : Bool :=
  let n := c.toNat
  (0x09 ≤ n && n ≤ 0x0d) || (0x1c ≤ n && n ≤ 0x1f) || n = 0x20 ||
  n = 0x85 || n = 0xa0 || n = 0x1680 || (0x2000 ≤ n && n ≤ 0x200a) ||
  n = 0x2028 || n = 0x2029 || n = 0x202f || n = 0x205f || n = 0x3000

/-- Python `str.strip()` on a character list. -/
def pyStripChars (l : List Char) : List Char :=
  ((l.dropWhile isPySpace).reverse.dropWhile isPySpace).reverse

/-- Python `str.strip()` on a string. -/
def pyStrip (s : String) : String :=
  String.mk (pyStripChars s.data)

/-- The test `re.match(r"^#{1,3}\s+", line)`: with backtracking accounted for, the
line's maximal run of leading `#` has length 1, 2 or 3 and is followed by
at least one whitespace character. -/
def isHeadingChars (line : List Char) : Bool :=
  let hashes := line.takeWhile (fun c => c = '#')
  decide (1 ≤ hashes.length) && decide (hashes.length ≤ 3) &&
    (match line.drop hashes.length with
     | [] => false
     | c :: _ => isPySpace c)

/-- In-flight state of the `parse_sections` loop:
`(sections, current_heading, current_body)`. -/
def SectState : Type := List (String × String) × List Char × List (List Char)

/-- Close the current section exactly as the Python truthiness test
`if current_heading or current_body` does: append
`(current_heading, "\n".join(current_body).strip())` unless both are
empty. -/
def flushSection (sections : List (String × String)) (heading : List Char)
    (body : List (List Char)) : List (String × String) :=
  if heading ≠ [] ∨ body ≠ [] then
    sections ++ [(String.mk heading, String.mk (pyStripChars (List.intercalate ['\n'] body)))]
  else sections

/-- One line of the `parse_sections` loop (`cli.py` lines 191-198). -/
def sectionsStep (st : SectState) (line : List Char) : SectState :=
  let (sections, heading, body) := st
  if isHeadingChars line then (flushSection sections heading body, line, [])
  else (sections, heading, body ++ [line])

/-- The `parse_sections` loop on a pre-split list of lines: run the loop, flush the
final section, and fall back to `[("", plan)]` when no section was ever
recorded (`cli.py` lines 187-203). -/
def parseSectionsLines (plan : String) (lines : List (List Char)) : List (String × String) :=
  let st := lines.foldl sectionsStep (([], [], []) : SectState)
  let sections := flushSection st.1 st.2.1 st.2.2
  if sections = [] then [("", plan)] else sections

/-- Python `parse_sections(plan)` (`cli.py` lines 174-203). -/
def parseSections (plan : String) : List (String × String) :=
  parseSectionsLines plan (plan.data.splitOn '\n')

/-! ## Owner-revision operations (for version monotonicity) -/

/-- The two code paths through which an owner revision reaches a thread:
a reply event handled by the daemon (`handle_message`), or the CLI
`cmd_reply` command. -/
inductive RevisionOp where
  | daemon (ts text now : String)
  | cli (plan : String) (files : List String) (reply_ts now : String)
  deriving DecidableEq, Repr

/-- The plan text carried by a revision. -/
def opText : RevisionOp → String
  | .daemon _ text _ => text
  | .cli plan _ _ _ => plan

/-- Apply one owner revision to a thread through the corresponding code
path (the daemon path classifies by the owner's identity; `cmd_reply`
posts unconditionally on behalf of the session owner). -/
def applyRevision (owner : String) (t : Thread) : RevisionOp → Thread
  | .daemon ts text now => classifyAndAppend t owner ts text now
  | .cli plan files reply_ts now => cmdReplyThread t plan files reply_ts now

/-- A whole sequence of owner revisions, in posting order. -/
def applyRevisions (owner : String) (t : Thread) (ops : List RevisionOp) : Thread :=
  ops.foldl (applyRevision owner) t

/-- Does a conflict entry concern the unordered thread pair `{a, b}`? -/
def pairMatches (a b : String) (e : String × String × List String) : Bool :=
  (e.1 == a && e.2.1 == b) || (e.1 == b && e.2.1 == a)

/-! ## Sample data used by witnesses (mirrors `tests/conftest.py`) -/

def tSample : Thread := postPlanThread "U_ME" "111.111" "Initial plan" ["auth/middleware.py"] "t0"

def sState : ChannelState :=
  { channel_id := "C123"
    channel_name := "wg_test"
    created_by := some "U_ME"
    collaborators := ["U_BOB"]
    threads := [("111.111", tSample)] }

def tConflictA : Thread := postPlanThread "U_ME" "1" "plan a" ["auth/a.py", "shared.py"] "t0"

def tConflictB : Thread := postPlanThread "U_BOB" "2" "plan b" ["api/b.py", "shared.py"] "t0"

def sConflict : ChannelState :=
  { channel_id := "C9"
    channel_name := "wg_conf"
    created_by := some "U_ME"
    collaborators := ["U_BOB"]
    threads := [("1", tConflictA), ("2", tConflictB)] }

/-! ## Lemmas about the `parse_sections` loop -/

theorem foldl_sectionsStep_no_heading :
    ∀ (lines : List (List Char)), (∀ l ∈ lines, isHeadingChars l = false) →
      ∀ (secs : List (String × String)) (h : List Char) (b : List (List Char)),
        lines.foldl sectionsStep (secs, h, b) = (secs, h, b ++ lines) := by
  intro lines
  induction lines with
  | nil => intro _ secs h b; simp
  | cons hd rest ih =>
      intro hall secs h b
      have hhd : isHeadingChars hd = false := hall hd (List.mem_cons_self _ _)
      have hrest := ih (fun l hl => hall l (List.mem_cons_of_mem _ hl)) secs h (b ++ [hd])
      simp only [List.foldl_cons, sectionsStep, hhd, Bool.false_eq_true, if_neg, ite_false]
      rw [hrest]
      simp

theorem splitOn_newline_ne_nil (cs : List Char) : cs.splitOn '\n' ≠ [] := by
  simpa [List.splitOn] using List.splitOnP_ne_nil (· == '\n') cs

/-- C9 (amended): on an input without any h1-h3 heading line,
`parse_sections` returns the single pair `("", stripped)` where
`stripped` is the input with leading and trailing whitespace removed by
`str.strip()` (equal to the full input exactly when the input has no
surrounding whitespace); on the empty input it returns `[("", "")]`. -/
theorem no_heading_single_section (plan : String)
    (h : ∀ l ∈ plan.data.splitOn '\n', isHeadingChars l = false) :
    parseSections plan = [("", pyStrip plan)] ∧ parseSections "" = [("", "")] := by
  refine ⟨?_, by decide⟩
  have hfold := foldl_sectionsStep_no_heading (plan.data.splitOn '\n') h [] [] []
  have hne := splitOn_newline_ne_nil plan.data
  simp only [parseSections, parseSectionsLines, hfold, List.nil_append]
  have hflush : flushSection [] [] (plan.data.splitOn '\n')
      = [(String.mk [], String.mk (pyStripChars
          (List.intercalate ['\n'] (plan.data.splitOn '\n'))))] := by
    simp [flushSection, hne]
  rw [hflush]
  have hjoin : List.intercalate ['\n'] (plan.data.splitOn '\n') = plan.data :=
    List.intercalate_splitOn plan.data '\n'
  rw [hjoin]
  simp [pyStrip]

theorem no_heading_single_section_witness :
    parseSections "plain text" = [("", pyStrip "plain text")]
    ∧ parseSections "" = [("", "")] :=
  no_heading_single_section "plain text" (by decide)

theorem stringMk_nil : String.mk [] = "" := rfl

theorem stringMk_eq_empty_iff (l : List Char) : String.mk l = "" ↔ l = [] := by
  constructor
  · intro he
    have hd : (String.mk l).data = ("" : String).data := congrArg String.data he
    simpa using hd
  · intro he
    subst he
    rfl

theorem isHeadingChars_ne_nil (l : List Char) (h : isHeadingChars l = true) : l ≠ [] := by
  intro he
  subst he
  simp [isHeadingChars] at h

theorem flushSection_heads (secs : List (String × String)) (h : List Char)
    (b : List (List Char)) :
    ((flushSection secs h b).map Prod.fst).filter (fun s => s ≠ "")
      = ((secs.map Prod.fst).filter (fun s => s ≠ ""))
        ++ (if h ≠ [] then [String.mk h] else []) := by
  by_cases hcond : h ≠ [] ∨ b ≠ []
  · rw [flushSection, if_pos hcond]
    by_cases hh : h = []
    · subst hh
      simp [stringMk_nil]
    · simp [List.filter_append, hh, stringMk_eq_empty_iff]
  · rw [flushSection, if_neg hcond]
    push_neg at hcond
    simp [hcond.1]

theorem flushSection_exists_ext (secs : List (String × String)) (h : List Char)
    (b : List (List Char)) : ∃ e, flushSection secs h b = secs ++ e := by
  by_cases hc : h ≠ [] ∨ b ≠ []
  · exact ⟨_, by rw [flushSection, if_pos hc]⟩
  · exact ⟨[], by rw [flushSection, if_neg hc, List.append_nil]⟩

theorem foldl_sectionsStep_heads :
    ∀ (lines : List (List Char)) (secs : List (String × String)) (h0 : List Char)
      (b : List (List Char)),
      (((lines.foldl sectionsStep (secs, h0, b)).1.map Prod.fst).filter (fun s => s ≠ ""))
        ++ (if (lines.foldl sectionsStep (secs, h0, b)).2.1 ≠ []
            then [String.mk (lines.foldl sectionsStep (secs, h0, b)).2.1] else [])
      = ((secs.map Prod.fst).filter (fun s => s ≠ ""))
        ++ (if h0 ≠ [] then [String.mk h0] else [])
        ++ ((lines.filter isHeadingChars).map String.mk) := by
  intro lines
  induction lines with
  | nil => intro secs h0 b; simp
  | cons hd rest ih =>
      intro secs h0 b
      rcases hhd : isHeadingChars hd with _ | _
      · have hstep : sectionsStep (secs, h0, b) hd = (secs, h0, b ++ [hd]) := by
          simp [sectionsStep, hhd]
        simpa [List.foldl_cons, hstep, List.filter_cons, hhd]
          using ih secs h0 (b ++ [hd])
      · have hstep : sectionsStep (secs, h0, b) hd = (flushSection secs h0 b, hd, []) := by
          simp [sectionsStep, hhd]
        have hne : hd ≠ [] := isHeadingChars_ne_nil hd hhd
        have hrec := ih (flushSection secs h0 b) hd []
        rw [List.foldl_cons, hstep, hrec, flushSection_heads]
        simp [List.filter_cons, hhd, hne, List.append_assoc]

theorem foldl_sectionsStep_ext :
    ∀ (lines : List (List Char)) (secs : List (String × String)) (h : List Char)
      (b : List (List Char)),
      ∃ ext h' b', lines.foldl sectionsStep (secs, h, b) = (secs ++ ext, h', b') := by
  intro lines
  induction lines with
  | nil => intro secs h b; exact ⟨[], h, b, by simp⟩
  | cons hd rest ih =>
      intro secs h b
      rcases hhd : isHeadingChars hd with _ | _
      · obtain ⟨ext, h', b', heq⟩ := ih secs h (b ++ [hd])
        refine ⟨ext, h', b', ?_⟩
        simpa [List.foldl_cons, sectionsStep, hhd] using heq
      · obtain ⟨e, he⟩ := flushSection_exists_ext secs h b
        obtain ⟨ext, h', b', heq⟩ := ih (flushSection secs h b) hd []
        refine ⟨e ++ ext, h', b', ?_⟩
        have hstep : sectionsStep (secs, h, b) hd = (flushSection secs h b, hd, []) := by
          simp [sectionsStep, hhd]
        rw [List.foldl_cons, hstep, heq, he, List.append_assoc]

theorem parseSections_leading (plan : String) (pre : List (List Char)) (hl : List Char)
    (rest : List (List Char))
    (hsplit : plan.data.splitOn '\n' = pre ++ hl :: rest)
    (hpre : ∀ l ∈ pre, isHeadingChars l = false)
    (hpre_ne : pre ≠ [])
    (hhl : isHeadingChars hl = true) :
    (parseSections plan).head?
      = some ("", String.mk (pyStripChars (List.intercalate ['\n'] pre))) := by
  set p0 : String × String := ("", String.mk (pyStripChars (List.intercalate ['\n'] pre)))
    with hp0
  have hfold1 : pre.foldl sectionsStep (([], [], []) : SectState) = ([], [], pre) := by
    simpa using foldl_sectionsStep_no_heading pre hpre [] [] []
  have hflush : flushSection [] [] pre = [p0] := by
    rw [flushSection, if_pos (Or.inr hpre_ne), hp0]
    simp [stringMk_nil]
  have hstep : sectionsStep (([], [], pre) : SectState) hl = ([p0], hl, []) := by
    simp [sectionsStep, hhl, hflush]
  obtain ⟨ext, h', b', hrest⟩ := foldl_sectionsStep_ext rest [p0] hl []
  have hfull : (plan.data.splitOn '\n').foldl sectionsStep (([], [], []) : SectState)
      = (p0 :: ext, h', b') := by
    rw [hsplit, List.foldl_append, hfold1, List.foldl_cons, hstep, hrest]
    rfl
  obtain ⟨e2, he2⟩ := flushSection_exists_ext (p0 :: ext) h' b'
  simp only [parseSections, parseSectionsLines, hfull]
  rw [he2]
  simp

/-- C10: the splitter's section boundaries are exactly the h1-h3 heading
lines.  Stated as: (i) the concrete three-heading example from the spec;
(ii) for every input, the non-empty headings of the result are exactly
the lines matching the h1-h3 heading pattern, in order (so a
level-4-or-deeper heading line never starts a section); (iii) a
`"#### "`-line is not a heading line; and (iv) for an input whose lines
consist of non-empty pre-heading text followed by a heading line, the
first returned section pairs the empty heading with that leading text
(joined and stripped). -/
theorem section_splitting (plan : String) (pre : List (List Char)) (hl : List Char)
    (rest : List (List Char))
    (hsplit : plan.data.splitOn '\n' = pre ++ hl :: rest)
    (hpre : ∀ l ∈ pre, isHeadingChars l = false)
    (hpre_ne : pre ≠ [])
    (hhl : isHeadingChars hl = true) :
    parseSections "# A\n\naa\n\n## B\n\nbb\n\n### C\n\ncc"
      = [("# A", "aa"), ("## B", "bb"), ("### C", "cc")]
    ∧ (∀ q : String, ((parseSections q).map Prod.fst).filter (fun s => s ≠ "")
        = ((q.data.splitOn '\n').filter isHeadingChars).map String.mk)
    ∧ isHeadingChars "#### Deep heading".data = false
    ∧ (parseSections plan).head?
        = some ("", String.mk (pyStripChars (List.intercalate ['\n'] pre))) := by
  refine ⟨by decide, ?_, by decide,
    parseSections_leading plan pre hl rest hsplit hpre hpre_ne hhl⟩
  intro q
  rcases hst : (q.data.splitOn '\n').foldl sectionsStep (([], [], []) : SectState)
    with ⟨secs1, h1, b1⟩
  have hb := foldl_sectionsStep_heads (q.data.splitOn '\n') [] [] []
  rw [hst] at hb
  simp only [List.map_nil, List.filter_nil, List.nil_append, ne_eq, not_true_eq_false,
    if_false, List.append_nil] at hb
  have ha := flushSection_heads secs1 h1 b1
  have hcomb : ((flushSection secs1 h1 b1).map Prod.fst).filter (fun s => s ≠ "")
      = ((q.data.splitOn '\n').filter isHeadingChars).map String.mk := by
    rw [ha]
    simpa using hb
  by_cases hnil : flushSection secs1 h1 b1 = []
  · have hres : parseSections q = [("", q)] := by
      simp [parseSections, parseSectionsLines, hst, hnil]
    rw [hnil] at hcomb
    simp only [List.map_nil, List.filter_nil] at hcomb
    rw [hres, ← hcomb]
    simp
  · have hres : parseSections q = flushSection secs1 h1 b1 := by
      simp [parseSections, parseSectionsLines, hst, hnil]
    rw [hres, hcomb]

theorem section_splitting_witness :
    parseSections "# A\n\naa\n\n## B\n\nbb\n\n### C\n\ncc"
      = [("# A", "aa"), ("## B", "bb"), ("### C", "cc")]
    ∧ (∀ q : String, ((parseSections q).map Prod.fst).filter (fun s => s ≠ "")
        = ((q.data.splitOn '\n').filter isHeadingChars).map String.mk)
    ∧ isHeadingChars "#### Deep heading".data = false
    ∧ (parseSections "x\n# A\naa").head?
        = some ("", String.mk (pyStripChars (List.intercalate ['\n'] [['x']]))) :=
  section_splitting "x\n# A\naa" [['x']] "# A".data ["aa".data] (by decide) (by decide)
    (by decide) (by decide)

/-- C9 counterexample: the no-heading input `"a\n"` does not come back as
`("", "a\n")` — the body is stripped to `"a"`, so the single returned
pair is not `("", full_text)` for this input. -/
theorem no_heading_single_section_counterexample :
    parseSections "a\n" = [("", "a")] ∧ parseSections "a\n" ≠ [("", "a\n")] := by
  constructor
  · decide
  · decide

/-! ## Association-list lemmas for the threads dict -/

theorem wgLookup_insert_self (l : List (String × Thread)) (k : String) (v : Thread) :
    wgLookup (wgInsert l k v) k = some v := by
  induction l with
  | nil => simp [wgInsert, wgLookup]
  | cons p rest ih =>
      obtain ⟨k', v'⟩ := p
      by_cases h : k' = k
      · simp [wgInsert, h, wgLookup]
      · simp [wgInsert, h, wgLookup, ih]

theorem wgLookup_insert_ne (l : List (String × Thread)) (k k' : String) (v : Thread)
    (h : k' ≠ k) : wgLookup (wgInsert l k v) k' = wgLookup l k' := by
  induction l with
  | nil => simp [wgInsert, wgLookup, Ne.symm h]
  | cons p rest ih =>
      obtain ⟨k₀, v₀⟩ := p
      by_cases hk : k₀ = k
      · subst hk
        simp [wgInsert, wgLookup, Ne.symm h]
      · simp [wgInsert, hk, wgLookup, ih]

theorem wgLookup_append_some (l e : List (String × Thread)) (k : String) (v : Thread)
    (h : wgLookup l k = some v) : wgLookup (l ++ e) k = some v := by
  induction l with
  | nil => simp [wgLookup] at h
  | cons p rest ih =>
      obtain ⟨k', v'⟩ := p
      by_cases hk : k' = k
      · simp [wgLookup, hk] at h ⊢; exact h
      · simp [wgLookup, hk] at h ⊢; exact ih h

theorem wgLookup_append_none (l e : List (String × Thread)) (k : String)
    (h : wgLookup l k = none) : wgLookup (l ++ e) k = wgLookup e k := by
  induction l with
  | nil => simp
  | cons p rest ih =>
      obtain ⟨k', v'⟩ := p
      by_cases hk : k' = k
      · simp [wgLookup, hk] at h
      · simp [wgLookup, hk] at h ⊢; exact ih h

theorem wgLookup_eq_none_iff (l : List (String × Thread)) (k : String) :
    wgLookup l k = none ↔ k ∉ l.map Prod.fst := by
  induction l with
  | nil => simp [wgLookup]
  | cons p rest ih =>
      obtain ⟨k', v'⟩ := p
      by_cases hk : k' = k
      · simp [wgLookup, hk]
      · simp only [wgLookup, if_neg hk, List.map_cons, List.mem_cons, not_or, ih]
        constructor
        · intro h
          exact ⟨fun hkk => hk hkk.symm, h⟩
        · intro h
          exact h.2

theorem wgLookup_of_mem_nodup (l : List (String × Thread)) (k : String) (v : Thread)
    (hmem : (k, v) ∈ l) (hnd : (l.map Prod.fst).Nodup) : wgLookup l k = some v := by
  induction l with
  | nil => simp at hmem
  | cons p rest ih =>
      obtain ⟨k', v'⟩ := p
      simp only [List.map_cons, List.nodup_cons] at hnd
      rcases List.mem_cons.mp hmem with h | h
      · obtain ⟨h1, h2⟩ := Prod.mk.injEq .. ▸ h
        simp [wgLookup, h1.symm, h2]
      · have hne : k' ≠ k := by
          intro hkk
          exact hnd.1 (hkk ▸ (List.mem_map.mpr ⟨(k, v), h, rfl⟩))
        simp [wgLookup, hne, ih h hnd.2]

theorem wgLookup_filter (l : List (String × Thread)) (p : String × Thread → Bool)
    (k : String) (v : Thread) (h : wgLookup l k = some v) (hp : p (k, v) = true) :
    wgLookup (l.filter p) k = some v := by
  induction l with
  | nil => simp [wgLookup] at h
  | cons q rest ih =>
      obtain ⟨k', v'⟩ := q
      by_cases hk : k' = k
      · subst hk
        simp only [wgLookup, if_pos rfl] at h
        obtain rfl : v' = v := Option.some.inj h
        simp [List.filter_cons, hp, wgLookup]
      · simp only [wgLookup, if_neg hk] at h
        rcases hq : p (k', v') with _ | _
        · simp [List.filter_cons, hq, ih h]
        · simp [List.filter_cons, hq, wgLookup, hk, ih h]

/-! ## C1: classification symmetry between live handling and bootstrap -/

/-- C1: a reply authored by `user` on a thread owned by `author` is
recorded with kind `"revision"` exactly when `user = author` and
`"feedback"` otherwise, and the live daemon path (`handle_message`) and
the bootstrap replay path (`cmd_bootstrap`) produce the very same updated
thread — in particular the same kind and the same version increment —
for any identical (owner, replier) pair. -/
theorem classification_symmetry (t : Thread) (author user ts text now : String)
    (h : t.owner = some author) :
    (classifyAndAppend t user ts text now).feedback =
      t.feedback ++ [{ user := user, ts := ts, text := text, received_at := now,
                       type := if user = author then "revision" else "feedback" }]
    ∧ ((if user = author then "revision" else "feedback") = "revision" ↔ user = author)
    ∧ (classifyAndAppend t user ts text now).version =
        (if user = author then t.version + 1 else t.version)
    ∧ classifyAndAppend t user ts text now = bootstrapApplyReply author t ⟨ts, user, text⟩ now := by
  by_cases hu : user = author
  · subst hu
    refine ⟨?_, ?_, ?_, ?_⟩ <;> simp [classifyAndAppend, bootstrapApplyReply, h]
  · have h' : t.owner ≠ some user := by
      rw [h]
      exact fun hc => hu (Option.some.inj hc).symm
    refine ⟨?_, ?_, ?_, ?_⟩ <;>
      simp [classifyAndAppend, bootstrapApplyReply, h', hu, Ne.symm hu]

theorem classification_symmetry_witness :
    (classifyAndAppend tSample "U_BOB" "200.0" "Looks good" "t1").feedback =
      tSample.feedback ++ [{ user := "U_BOB", ts := "200.0", text := "Looks good",
                             received_at := "t1",
                             type := if "U_BOB" = "U_ME" then "revision" else "feedback" }]
    ∧ ((if "U_BOB" = "U_ME" then "revision" else "feedback") = "revision" ↔ "U_BOB" = "U_ME")
    ∧ (classifyAndAppend tSample "U_BOB" "200.0" "Looks good" "t1").version =
        (if "U_BOB" = "U_ME" then tSample.version + 1 else tSample.version)
    ∧ classifyAndAppend tSample "U_BOB" "200.0" "Looks good" "t1" =
        bootstrapApplyReply "U_ME" tSample ⟨"200.0", "U_BOB", "Looks good"⟩ "t1" :=
  classification_symmetry tSample "U_ME" "U_BOB" "200.0" "Looks good" "t1" rfl

/-! ## C4: frame of posting a revision (`cmd_reply`) -/

/-- C4: `cmd_reply` on an existing thread increments `version` by one,
appends exactly one `plan_versions` entry, resets `status` to
`"awaiting_feedback"`, and leaves `approved` / `approved_by` exactly as
they were. -/
theorem revision_frame (s : ChannelState) (thread_ts plan : String) (files : List String)
    (reply_ts now : String) (t : Thread) (h : wgLookup s.threads thread_ts = some t) :
    wgLookup (cmdReplyCore s thread_ts plan files reply_ts now).threads thread_ts
      = some (cmdReplyThread t plan files reply_ts now)
    ∧ (cmdReplyThread t plan files reply_ts now).version = t.version + 1
    ∧ (cmdReplyThread t plan files reply_ts now).plan_versions
        = t.plan_versions ++
            [{ version := t.version + 1, text := plan, posted_at := now, ts := some reply_ts }]
    ∧ (cmdReplyThread t plan files reply_ts now).status = "awaiting_feedback"
    ∧ (cmdReplyThread t plan files reply_ts now).approved = t.approved
    ∧ (cmdReplyThread t plan files reply_ts now).approved_by = t.approved_by := by
  refine ⟨?_, ?_, ?_, ?_, ?_, ?_⟩
  · simp only [cmdReplyCore, h, Option.getD_some]
    exact wgLookup_insert_self ..
  all_goals
    by_cases hf : files = [] <;> simp [cmdReplyThread, hf]

theorem revision_frame_witness :
    wgLookup (cmdReplyCore sState "111.111" "Plan v2" [] "300.0" "t2").threads "111.111"
      = some (cmdReplyThread tSample "Plan v2" [] "300.0" "t2")
    ∧ (cmdReplyThread tSample "Plan v2" [] "300.0" "t2").version = tSample.version + 1
    ∧ (cmdReplyThread tSample "Plan v2" [] "300.0" "t2").plan_versions
        = tSample.plan_versions ++
            [{ version := tSample.version + 1, text := "Plan v2", posted_at := "t2",
               ts := some "300.0" }]
    ∧ (cmdReplyThread tSample "Plan v2" [] "300.0" "t2").status = "awaiting_feedback"
    ∧ (cmdReplyThread tSample "Plan v2" [] "300.0" "t2").approved = tSample.approved
    ∧ (cmdReplyThread tSample "Plan v2" [] "300.0" "t2").approved_by = tSample.approved_by :=
  revision_frame sState "111.111" "Plan v2" [] "300.0" "t2" tSample rfl

/-! ## C5: placeholder backfill for replies to unknown threads -/

/-- C5: a reply event for a thread id absent from the store makes
`handle_message` synthesize a placeholder thread (`owner=null`,
`version=1`, `status="open"`, empty `plan_versions` and `feedback`) and
append the reply to it as `"feedback"`; the (total) handler never fails
for want of a parent thread. -/
theorem placeholder_backfill (s : ChannelState) (thread_ts ts user text now : String)
    (h : wgLookup s.threads thread_ts = none) :
    wgLookup (handleMessageReply s thread_ts ts user text now).threads thread_ts =
      some { owner := none, ts := thread_ts, version := 1, status := "open",
             approved := false, approved_by := none, files := [], plan_versions := [],
             feedback := [{ user := user, ts := ts, text := text,
                            received_at := now, type := "feedback" }] } := by
  have howner : (placeholderThread thread_ts).owner ≠ some user := by
    simp [placeholderThread]
  simp only [handleMessageReply, h]
  rw [wgLookup_insert_self]
  simp [classifyAndAppend, howner, placeholderThread]

/-! ## C3: version monotonicity over owner revisions -/

theorem applyRevisions_owner_version (owner : String) (ops : List RevisionOp) :
    ∀ t : Thread, t.owner = some owner →
      (applyRevisions owner t ops).owner = some owner
      ∧ (applyRevisions owner t ops).version = t.version + ops.length
      ∧ (applyRevisions owner t ops).plan_versions.map PlanVersion.text
          = t.plan_versions.map PlanVersion.text ++ ops.map opText := by
  induction ops with
  | nil => intro t ht; simp [applyRevisions, ht]
  | cons op rest ih =>
      intro t ht
      have hstep : (applyRevision owner t op).owner = some owner
          ∧ (applyRevision owner t op).version = t.version + 1
          ∧ (applyRevision owner t op).plan_versions.map PlanVersion.text
              = t.plan_versions.map PlanVersion.text ++ [opText op] := by
        cases op with
        | daemon ts text now =>
            refine ⟨?_, ?_, ?_⟩ <;> simp [applyRevision, classifyAndAppend, ht, opText]
        | cli plan files reply_ts now =>
            refine ⟨?_, ?_, ?_⟩ <;>
              by_cases hf : files = [] <;> simp [applyRevision, cmdReplyThread, hf, opText, ht]
      have hrest := ih (applyRevision owner t op) hstep.1
      refine ⟨?_, ?_, ?_⟩
      · simpa [applyRevisions] using hrest.1
      · have := hrest.2.1
        simp only [applyRevisions] at this ⊢
        simp [this, hstep.2.1]
        omega
      · have := hrest.2.2
        simp only [applyRevisions] at this ⊢
        simp [this, hstep.2.2]

/-- C3: counting the owner's initial plan post as the first of the N
posted versions, a thread created by a plan post followed by k owner
revisions (through either the daemon or the CLI path, in any mix) has
`version = k + 1 = N` and exactly N `plan_versions` entries whose texts
appear in post order; moreover no operation ever decreases `version`,
and every revision appends to `plan_versions` (the old history is always
a prefix of the new one), including replies by non-owners handled by the
daemon (which change neither). -/
theorem version_monotonicity (owner anchor plan : String) (files : List String)
    (now : String) (ops : List RevisionOp) :
    (applyRevisions owner (postPlanThread owner anchor plan files now) ops).version
        = ops.length + 1
    ∧ (applyRevisions owner (postPlanThread owner anchor plan files now) ops).plan_versions.length
        = ops.length + 1
    ∧ (applyRevisions owner (postPlanThread owner anchor plan files now) ops).plan_versions.map
        PlanVersion.text = plan :: ops.map opText
    ∧ (∀ (t : Thread) (op : RevisionOp),
        t.version ≤ (applyRevision owner t op).version
        ∧ (applyRevision owner t op).plan_versions.take t.plan_versions.length
            = t.plan_versions)
    ∧ (∀ (t : Thread) (user uts utext unow : String),
        t.version ≤ (classifyAndAppend t user uts utext unow).version
        ∧ (classifyAndAppend t user uts utext unow).plan_versions.take t.plan_versions.length
            = t.plan_versions) := by
  have h := applyRevisions_owner_version owner ops (postPlanThread owner anchor plan files now)
    (by simp [postPlanThread])
  have htexts : (applyRevisions owner (postPlanThread owner anchor plan files now)
      ops).plan_versions.map PlanVersion.text = plan :: ops.map opText := by
    rw [h.2.2]
    simp [postPlanThread]
  refine ⟨?_, ?_, htexts, ?_, ?_⟩
  · rw [h.2.1]
    simp [postPlanThread]
    omega
  · have := congrArg List.length htexts
    simpa using this
  · intro t op
    cases op with
    | daemon ts text tnow =>
        by_cases ho : t.owner = some owner <;>
          simp [applyRevision, classifyAndAppend, ho, List.take_left]
    | cli plan' files' reply_ts tnow =>
        by_cases hf : files' = [] <;>
          simp [applyRevision, cmdReplyThread, hf, List.take_left]
  · intro t user uts utext unow
    by_cases ho : t.owner = some user <;>
      simp [classifyAndAppend, ho, List.take_left]

/-! ## C2: bootstrap reconciliation is additive and idempotent -/

theorem reconcileMsg_exists_ext (threads : List (String × Thread))
    (item : SlackMessage × List SlackMessage) (now : String) :
    ∃ ext, reconcileMsg threads item now = threads ++ ext := by
  rcases h : wgLookup threads item.1.ts with _ | t
  · refine ⟨[(item.1.ts, item.2.foldl (fun th r => bootstrapApplyReply item.1.user th r now)
      (bootstrapThread item.1 now))], ?_⟩
    simp [reconcileMsg, h]
  · exact ⟨[], by simp [reconcileMsg, h]⟩

theorem reconcile_exists_ext (history : List (SlackMessage × List SlackMessage)) :
    ∀ (threads : List (String × Thread)) (now : String),
      ∃ ext, reconcile threads history now = threads ++ ext := by
  induction history with
  | nil => exact fun threads now => ⟨[], by simp [reconcile]⟩
  | cons item rest ih =>
      intro threads now
      obtain ⟨e1, h1⟩ := reconcileMsg_exists_ext threads item now
      obtain ⟨e2, h2⟩ := ih (reconcileMsg threads item now) now
      refine ⟨e1 ++ e2, ?_⟩
      have hstep : reconcile threads (item :: rest) now
          = reconcile (reconcileMsg threads item now) rest now := rfl
      rw [hstep, h2, h1, List.append_assoc]

theorem reconcile_lookup_some (threads : List (String × Thread))
    (history : List (SlackMessage × List SlackMessage)) (now : String)
    (k : String) (t : Thread) (hk : wgLookup threads k = some t) :
    wgLookup (reconcile threads history now) k = some t := by
  obtain ⟨ext, hext⟩ := reconcile_exists_ext history threads now
  rw [hext]
  exact wgLookup_append_some _ _ _ _ hk

theorem reconcileMsg_self_isSome (threads : List (String × Thread))
    (item : SlackMessage × List SlackMessage) (now : String) :
    (wgLookup (reconcileMsg threads item now) item.1.ts).isSome := by
  rcases h : wgLookup threads item.1.ts with _ | t
  · simp only [reconcileMsg, h]
    rw [wgLookup_append_none _ _ _ h]
    simp [wgLookup]
  · simp [reconcileMsg, h]

theorem reconcile_mem_isSome (history : List (SlackMessage × List SlackMessage)) :
    ∀ (threads : List (String × Thread)) (now : String)
      (item : SlackMessage × List SlackMessage), item ∈ history →
      (wgLookup (reconcile threads history now) item.1.ts).isSome := by
  induction history with
  | nil => intro _ _ _ hm; simp at hm
  | cons hd rest ih =>
      intro threads now item hm
      have hstep : reconcile threads (hd :: rest) now
          = reconcile (reconcileMsg threads hd now) rest now := rfl
      rcases List.mem_cons.mp hm with rfl | hm'
      · rw [hstep]
        have h1 := reconcileMsg_self_isSome threads item now
        rcases h : wgLookup (reconcileMsg threads item now) item.1.ts with _ | v
        · rw [h] at h1; simp at h1
        · have := reconcile_lookup_some (reconcileMsg threads item now) rest now _ _ h
          simp [this]
      · rw [hstep]
        exact ih (reconcileMsg threads hd now) now item hm'

theorem reconcile_of_all_present (history : List (SlackMessage × List SlackMessage)) :
    ∀ (threads : List (String × Thread)) (now : String),
      (∀ item ∈ history, (wgLookup threads item.1.ts).isSome) →
      reconcile threads history now = threads := by
  induction history with
  | nil => intro threads now _; rfl
  | cons hd rest ih =>
      intro threads now hall
      have h1 : reconcileMsg threads hd now = threads := by
        have := hall hd (List.mem_cons_self hd rest)
        rcases h : wgLookup threads hd.1.ts with _ | v
        · rw [h] at this; simp at this
        · simp [reconcileMsg, h]
      have hstep : reconcile threads (hd :: rest) now
          = reconcile (reconcileMsg threads hd now) rest now := rfl
      rw [hstep, h1]
      exact ih threads now (fun item hm => hall item (List.mem_cons_of_mem hd hm))

theorem reconcileMsg_nodup (threads : List (String × Thread))
    (item : SlackMessage × List SlackMessage) (now : String)
    (hnd : (threads.map Prod.fst).Nodup) :
    ((reconcileMsg threads item now).map Prod.fst).Nodup := by
  rcases h : wgLookup threads item.1.ts with _ | t
  · have hnotin : item.1.ts ∉ threads.map Prod.fst := (wgLookup_eq_none_iff _ _).mp h
    simp only [reconcileMsg, h, List.map_append, List.map_cons, List.map_nil]
    rw [List.nodup_append]
    refine ⟨hnd, List.nodup_singleton _, ?_⟩
    intro a ha hc
    simp only [List.mem_singleton] at hc
    exact hnotin (hc ▸ ha)
  · simpa [reconcileMsg, h] using hnd

theorem reconcile_nodup (history : List (SlackMessage × List SlackMessage)) :
    ∀ (threads : List (String × Thread)) (now : String),
      (threads.map Prod.fst).Nodup →
      ((reconcile threads history now).map Prod.fst).Nodup := by
  induction history with
  | nil => intro _ _ h; exact h
  | cons hd rest ih =>
      intro threads now hnd
      exact ih (reconcileMsg threads hd now) now (reconcileMsg_nodup threads hd now hnd)

/-- C2: `cmd_bootstrap` reconciliation is additive and idempotent: a
thread id already present in the store keeps exactly its old record
(only absent ids are added, at the end of the dict), thread keys stay
duplicate-free, and a second reconciliation over the same history — even
at a later wall-clock time — returns the store of the first run
unchanged (hence no duplicate threads and no duplicate feedback
entries). -/
theorem reconcile_additive_idempotent (threads : List (String × Thread))
    (history : List (SlackMessage × List SlackMessage)) (now now' : String)
    (k : String) (t : Thread) (hk : wgLookup threads k = some t)
    (hnd : (threads.map Prod.fst).Nodup) :
    wgLookup (reconcile threads history now) k = some t
    ∧ reconcile (reconcile threads history now) history now' = reconcile threads history now
    ∧ ((reconcile threads history now).map Prod.fst).Nodup := by
  refine ⟨reconcile_lookup_some threads history now k t hk, ?_,
    reconcile_nodup history threads now hnd⟩
  exact reconcile_of_all_present history _ now'
    (fun item hm => reconcile_mem_isSome history threads now item hm)

theorem reconcile_additive_idempotent_witness :
    wgLookup (reconcile sState.threads
        [(⟨"111.111", "U_X", "old plan"⟩, []),
         (⟨"500.0", "U_BOB", "bob plan"⟩, [⟨"501.0", "U_ME", "my feedback"⟩])] "t3") "111.111"
      = some tSample
    ∧ reconcile (reconcile sState.threads
          [(⟨"111.111", "U_X", "old plan"⟩, []),
           (⟨"500.0", "U_BOB", "bob plan"⟩, [⟨"501.0", "U_ME", "my feedback"⟩])] "t3")
        [(⟨"111.111", "U_X", "old plan"⟩, []),
         (⟨"500.0", "U_BOB", "bob plan"⟩, [⟨"501.0", "U_ME", "my feedback"⟩])] "t4"
      = reconcile sState.threads
          [(⟨"111.111", "U_X", "old plan"⟩, []),
           (⟨"500.0", "U_BOB", "bob plan"⟩, [⟨"501.0", "U_ME", "my feedback"⟩])] "t3"
    ∧ ((reconcile sState.threads
          [(⟨"111.111", "U_X", "old plan"⟩, []),
           (⟨"500.0", "U_BOB", "bob plan"⟩, [⟨"501.0", "U_ME", "my feedback"⟩])] "t3").map
        Prod.fst).Nodup :=
  reconcile_additive_idempotent sState.threads
    [(⟨"111.111", "U_X", "old plan"⟩, []),
     (⟨"500.0", "U_BOB", "bob plan"⟩, [⟨"501.0", "U_ME", "my feedback"⟩])] "t3" "t4"
    "111.111" tSample rfl (by decide)

/-! ## C6: reaction-based approval -/

theorem find_threadMatches_eq (item_ts k : String) (t : Thread)
    (hm : threadMatches item_ts (k, t) = true) :
    ∀ l : List (String × Thread), (l.map Prod.fst).Nodup →
      wgLookup l k = some t →
      (∀ p ∈ l, threadMatches item_ts p = true → p.1 = k) →
      l.find? (threadMatches item_ts) = some (k, t) := by
  intro l
  induction l with
  | nil => intro _ hk; simp [wgLookup] at hk
  | cons q rest ih =>
      intro hnd hk huniq
      obtain ⟨k', t'⟩ := q
      by_cases hkk : k' = k
      · subst hkk
        simp only [wgLookup, if_pos rfl] at hk
        obtain rfl : t' = t := Option.some.inj hk
        exact List.find?_cons_of_pos _ hm
      · have hhead : ¬ threadMatches item_ts (k', t') = true := by
          intro hq
          exact hkk (huniq (k', t') (List.mem_cons_self _ _) hq)
        have hk' : wgLookup rest k = some t := by simpa [wgLookup, hkk] using hk
        have hnd' : (rest.map Prod.fst).Nodup := by
          simp only [List.map_cons, List.nodup_cons] at hnd
          exact hnd.2
        rw [List.find?_cons_of_neg _ hhead]
        exact ih hnd' hk' (fun p hp hq => huniq p (List.mem_cons_of_mem _ hp) hq)

/-- C6: a `white_check_mark` reaction whose target id matches a thread —
either its anchor key or the `ts` of one of its feedback entries, the
match being unique across the store (message ids are unique in a Slack
channel) — approves that thread when its owner is the local operator
(`approved=true`, `approved_by=<reactor>`, `status="approved"`, all other
threads untouched), and leaves the store entirely unchanged when the
thread is not owned by the local operator. -/
theorem reaction_approval (s : ChannelState) (item_ts reactor myUserId k : String) (t : Thread)
    (hnd : (s.threads.map Prod.fst).Nodup)
    (hk : wgLookup s.threads k = some t)
    (hm : threadMatches item_ts (k, t) = true)
    (huniq : ∀ p ∈ s.threads, threadMatches item_ts p = true → p.1 = k) :
    (t.owner = some myUserId →
      wgLookup (handleReaction s "white_check_mark" item_ts reactor myUserId).threads k
        = some { t with approved := true, approved_by := some reactor, status := "approved" })
    ∧ (t.owner ≠ some myUserId →
        handleReaction s "white_check_mark" item_ts reactor myUserId = s)
    ∧ (∀ k' : String, k' ≠ k →
        wgLookup (handleReaction s "white_check_mark" item_ts reactor myUserId).threads k'
          = wgLookup s.threads k') := by
  have hfind := find_threadMatches_eq item_ts k t hm s.threads hnd hk huniq
  refine ⟨?_, ?_, ?_⟩
  · intro ho
    simp only [handleReaction, if_pos rfl, handleReactionCore, hfind, ho, if_pos rfl]
    exact wgLookup_insert_self ..
  · intro ho
    simp [handleReaction, handleReactionCore, hfind, ho]
  · intro k' hne
    by_cases ho : t.owner = some myUserId
    · simp only [handleReaction, if_pos rfl, handleReactionCore, hfind, ho, if_pos rfl]
      exact wgLookup_insert_ne _ _ _ _ hne
    · simp [handleReaction, handleReactionCore, hfind, ho]

theorem reaction_approval_witness :
    (tSample.owner = some "U_ME" →
      wgLookup (handleReaction sState "white_check_mark" "111.111" "U_BOB" "U_ME").threads
          "111.111"
        = some
            { tSample with approved := true, approved_by := some "U_BOB", status := "approved" })
    ∧ (tSample.owner ≠ some "U_ME" →
        handleReaction sState "white_check_mark" "111.111" "U_BOB" "U_ME" = sState)
    ∧ (∀ k' : String, k' ≠ "111.111" →
        wgLookup (handleReaction sState "white_check_mark" "111.111" "U_BOB" "U_ME").threads k'
          = wgLookup sState.threads k') :=
  reaction_approval sState "111.111" "U_BOB" "U_ME" "111.111" tSample (by decide) rfl
    (by decide) (by decide)

/-! ## C8: conflict detection -/

theorem mem_sortedInter (xs ys : List String) (x : String) :
    x ∈ sortedInter xs ys ↔ x ∈ xs ∧ x ∈ ys := by
  unfold sortedInter
  rw [(List.perm_insertionSort _ _).mem_iff, List.mem_dedup, List.mem_filter]
  simp

theorem sortedInter_nodup (xs ys : List String) : (sortedInter xs ys).Nodup := by
  unfold sortedInter
  exact ((List.perm_insertionSort _ _).symm.nodup (List.nodup_dedup _))

theorem sortedInter_sorted (xs ys : List String) :
    List.Sorted (· ≤ ·) (sortedInter xs ys) :=
  List.sorted_insertionSort _ _

theorem sortedInter_comm (xs ys : List String) : sortedInter xs ys = sortedInter ys xs := by
  refine List.eq_of_perm_of_sorted ?_ (sortedInter_sorted xs ys) (sortedInter_sorted ys xs)
  rw [List.perm_ext_iff_of_nodup (sortedInter_nodup xs ys) (sortedInter_nodup ys xs)]
  intro x
  rw [mem_sortedInter, mem_sortedInter]
  exact and_comm

theorem conflictEntry_eq_some (a : String) (ta : Thread) (p : String × Thread)
    (e : String × String × List String) (h : conflictEntry a ta p = some e) :
    sortedInter ta.files p.2.files ≠ [] ∧ e = (a, p.1, sortedInter ta.files p.2.files) := by
  by_cases hov : sortedInter ta.files p.2.files = []
  · simp [conflictEntry, hov] at h
  · simp only [conflictEntry, if_neg hov, Option.some.injEq] at h
    exact ⟨hov, h.symm⟩

theorem conflictsScan_mem_keys :
    ∀ (l : List (String × Thread)) (e : String × String × List String),
      e ∈ conflictsScan l → e.1 ∈ l.map Prod.fst ∧ e.2.1 ∈ l.map Prod.fst := by
  intro l
  induction l with
  | nil => intro e he; simp [conflictsScan] at he
  | cons p rest ih =>
      obtain ⟨ts_a, t_a⟩ := p
      intro e he
      simp only [conflictsScan, List.mem_append] at he
      rcases he with he | he
      · obtain ⟨q, hq, hfq⟩ := List.mem_filterMap.mp he
        obtain ⟨-, he2⟩ := conflictEntry_eq_some ts_a t_a q e hfq
        subst he2
        refine ⟨by simp, ?_⟩
        simp only [List.map_cons]
        exact List.mem_cons_of_mem _ (List.mem_map.mpr ⟨q, hq, rfl⟩)
      · obtain ⟨h1, h2⟩ := ih e he
        exact ⟨List.mem_cons_of_mem _ h1, List.mem_cons_of_mem _ h2⟩

theorem conflictsScan_countP_zero_left (a b : String) (l : List (String × Thread))
    (ha : a ∉ l.map Prod.fst) :
    (conflictsScan l).countP (pairMatches a b) = 0 := by
  rw [List.countP_eq_zero]
  intro e he hp
  obtain ⟨h1, h2⟩ := conflictsScan_mem_keys l e he
  simp only [pairMatches, Bool.or_eq_true, Bool.and_eq_true, beq_iff_eq] at hp
  rcases hp with ⟨hpa, -⟩ | ⟨-, hpa⟩
  · exact ha (hpa ▸ h1)
  · exact ha (hpa ▸ h2)

theorem conflictsScan_countP_zero_right (a b : String) (l : List (String × Thread))
    (hb : b ∉ l.map Prod.fst) :
    (conflictsScan l).countP (pairMatches a b) = 0 := by
  rw [List.countP_eq_zero]
  intro e he hp
  obtain ⟨h1, h2⟩ := conflictsScan_mem_keys l e he
  simp only [pairMatches, Bool.or_eq_true, Bool.and_eq_true, beq_iff_eq] at hp
  rcases hp with ⟨-, hpb⟩ | ⟨hpb, -⟩
  · exact hb (hpb ▸ h2)
  · exact hb (hpb ▸ h1)

theorem headBlock_countP_zero (x : String) (tx : Thread) (rest : List (String × Thread))
    (a b : String) (hxa : x ≠ a) (hxb : x ≠ b) :
    (rest.filterMap (conflictEntry x tx)).countP (pairMatches a b) = 0 := by
  rw [List.countP_eq_zero]
  intro e he hp
  obtain ⟨q, hq, hfq⟩ := List.mem_filterMap.mp he
  obtain ⟨-, rfl⟩ := conflictEntry_eq_some x tx q e hfq
  simp only [pairMatches, Bool.or_eq_true, Bool.and_eq_true, beq_iff_eq] at hp
  rcases hp with ⟨hpa, -⟩ | ⟨hpb, -⟩
  · exact hxa hpa
  · exact hxb hpb

theorem headBlock_countP (a : String) (ta : Thread) (b : String) (tb : Thread) (hab : a ≠ b) :
    ∀ rest : List (String × Thread), (rest.map Prod.fst).Nodup →
      wgLookup rest b = some tb →
      (rest.filterMap (conflictEntry a ta)).countP (pairMatches a b)
        = (if sortedInter ta.files tb.files = [] then 0 else 1)
      ∧ (∀ e ∈ rest.filterMap (conflictEntry a ta), pairMatches a b e = true
          → e.2.2 = sortedInter ta.files tb.files) := by
  intro rest
  induction rest with
  | nil => intro _ hb; simp [wgLookup] at hb
  | cons q rest' ih =>
      intro hnd hb
      obtain ⟨k, tk⟩ := q
      simp only [List.map_cons, List.nodup_cons] at hnd
      by_cases hk : k = b
      · subst hk
        have htk : tk = tb := by simpa [wgLookup] using hb
        subst htk
        have hknotin : k ∉ rest'.map Prod.fst := hnd.1
        have hzero : (rest'.filterMap (conflictEntry a ta)).countP (pairMatches a k) = 0 := by
          rw [List.countP_eq_zero]
          intro e he hp
          obtain ⟨q', hq', hfq'⟩ := List.mem_filterMap.mp he
          obtain ⟨-, rfl⟩ := conflictEntry_eq_some a ta q' e hfq'
          simp only [pairMatches, Bool.or_eq_true, Bool.and_eq_true, beq_iff_eq] at hp
          rcases hp with ⟨-, hp2⟩ | ⟨hp1, -⟩
          · exact hknotin (hp2 ▸ List.mem_map.mpr ⟨q', hq', rfl⟩)
          · exact hab hp1
        by_cases hov : sortedInter ta.files tk.files = []
        · have hce : conflictEntry a ta (k, tk) = none := by
            simp [conflictEntry, hov]
          constructor
          · simp [List.filterMap_cons, hce, hzero, hov]
          · intro e he hp
            rw [List.filterMap_cons, hce] at he
            exact absurd hp ((List.countP_eq_zero.mp hzero) e he)
        · have hce : conflictEntry a ta (k, tk)
              = some (a, k, sortedInter ta.files tk.files) := by
            simp [conflictEntry, hov]
          have hmatch : pairMatches a k (a, k, sortedInter ta.files tk.files) = true := by
            simp [pairMatches]
          constructor
          · rw [List.filterMap_cons, hce, List.countP_cons_of_pos _ _ hmatch, hzero,
              if_neg hov]
          · intro e he hp
            rw [List.filterMap_cons, hce] at he
            rcases List.mem_cons.mp he with rfl | he'
            · rfl
            · exact absurd hp ((List.countP_eq_zero.mp hzero) e he')
      · have hb' : wgLookup rest' b = some tb := by simpa [wgLookup, hk] using hb
        obtain ⟨ihc, ihv⟩ := ih hnd.2 hb'
        rcases hce : conflictEntry a ta (k, tk) with _ | e0
        · constructor
          · simp [List.filterMap_cons, hce, ihc]
          · intro e he hp
            rw [List.filterMap_cons, hce] at he
            exact ihv e he hp
        · obtain ⟨-, rfl⟩ := conflictEntry_eq_some a ta (k, tk) e0 hce
          have hnm : ¬ pairMatches a b
              (a, (k, tk).1, sortedInter ta.files (k, tk).2.files) = true := by
            simp [pairMatches, hab, hk]
          constructor
          · rw [List.filterMap_cons, hce, List.countP_cons_of_neg _ _ hnm, ihc]
          · intro e he hp
            rw [List.filterMap_cons, hce] at he
            rcases List.mem_cons.mp he with rfl | he'
            · exact absurd hp hnm
            · exact ihv e he' hp

theorem conflictsScan_pair (a b : String) (ta tb : Thread) (hab : a ≠ b) :
    ∀ l : List (String × Thread), (l.map Prod.fst).Nodup →
      wgLookup l a = some ta → wgLookup l b = some tb →
      (conflictsScan l).countP (pairMatches a b)
        = (if sortedInter ta.files tb.files = [] then 0 else 1)
      ∧ (∀ e ∈ conflictsScan l, pairMatches a b e = true
          → e.2.2 = sortedInter ta.files tb.files) := by
  intro l
  induction l with
  | nil => intro _ ha; simp [wgLookup] at ha
  | cons q rest ih =>
      intro hnd ha hb
      obtain ⟨k, tk⟩ := q
      simp only [List.map_cons, List.nodup_cons] at hnd
      by_cases hka : k = a
      · subst hka
        have hta : tk = ta := by simpa [wgLookup] using ha
        subst hta
        have hb' : wgLookup rest b = some tb := by
          have hne : ¬ k = b := hab
          simpa [wgLookup, hne] using hb
        have hknotin : k ∉ rest.map Prod.fst := hnd.1
        obtain ⟨hc, hv⟩ := headBlock_countP k tk b tb hab rest hnd.2 hb'
        constructor
        · simp only [conflictsScan, List.countP_append, hc,
            conflictsScan_countP_zero_left k b rest hknotin, Nat.add_zero]
        · intro e he hp
          simp only [conflictsScan, List.mem_append] at he
          rcases he with he | he
          · exact hv e he hp
          · exact absurd hp
              ((List.countP_eq_zero.mp (conflictsScan_countP_zero_left k b rest hknotin)) e he)
      · by_cases hkb : k = b
        · subst hkb
          have htb : tk = tb := by simpa [wgLookup] using hb
          subst htb
          have ha' : wgLookup rest a = some ta := by simpa [wgLookup, hka] using ha
          have hknotin : k ∉ rest.map Prod.fst := hnd.1
          obtain ⟨hc, hv⟩ := headBlock_countP k tk a ta hka rest hnd.2 ha'
          have hpm : pairMatches k a = pairMatches a k := by
            funext e
            simp [pairMatches, Bool.or_comm]
          rw [hpm] at hc hv
          rw [sortedInter_comm tk.files ta.files] at hc hv
          constructor
          · simp only [conflictsScan, List.countP_append, hc,
              conflictsScan_countP_zero_right a k rest hknotin, Nat.add_zero]
          · intro e he hp
            simp only [conflictsScan, List.mem_append] at he
            rcases he with he | he
            · exact hv e he hp
            · exact absurd hp
                ((List.countP_eq_zero.mp
                  (conflictsScan_countP_zero_right a k rest hknotin)) e he)
        · have ha' : wgLookup rest a = some ta := by simpa [wgLookup, hka] using ha
          have hb' : wgLookup rest b = some tb := by simpa [wgLookup, hkb] using hb
          obtain ⟨ihc, ihv⟩ := ih hnd.2 ha' hb'
          have hz := headBlock_countP_zero k tk rest a b hka hkb
          constructor
          · simp only [conflictsScan, List.countP_append, hz, ihc, Nat.zero_add]
          · intro e he hp
            simp only [conflictsScan, List.mem_append] at he
            rcases he with he | he
            · exact absurd hp ((List.countP_eq_zero.mp hz) e he)
            · exact ihv e he hp

/-- C8: for any store with duplicate-free thread keys, two distinct open
threads (whole-plan `approved` false) whose file sets intersect are
reported by `find_conflicts` exactly once as an unordered pair, carrying
the lexicographically sorted duplicate-free intersection of their file
lists; and no reported pair mentions a thread whose `approved` flag is
true, whatever its files. -/
theorem conflict_detection (s : ChannelState) (a b : String) (ta tb : Thread)
    (hnd : (s.threads.map Prod.fst).Nodup)
    (ha : wgLookup s.threads a = some ta) (hb : wgLookup s.threads b = some tb)
    (hab : a ≠ b)
    (hopen_a : ta.approved = false) (hopen_b : tb.approved = false)
    (hinter : sortedInter ta.files tb.files ≠ []) :
    (findConflicts s).countP (pairMatches a b) = 1
    ∧ (∀ e ∈ findConflicts s, pairMatches a b e = true
        → e.2.2 = sortedInter ta.files tb.files)
    ∧ (∀ (c : String) (tc : Thread), wgLookup s.threads c = some tc → tc.approved = true →
        ∀ e ∈ findConflicts s, e.1 ≠ c ∧ e.2.1 ≠ c) := by
  have hsub : List.Sublist
      ((s.threads.filter (fun p => p.2.approved = false)).map Prod.fst)
      (s.threads.map Prod.fst) :=
    (List.filter_sublist s.threads).map Prod.fst
  have hndf := hnd.sublist hsub
  have haf : wgLookup (s.threads.filter (fun p => p.2.approved = false)) a = some ta :=
    wgLookup_filter s.threads _ a ta ha (by simp [hopen_a])
  have hbf : wgLookup (s.threads.filter (fun p => p.2.approved = false)) b = some tb :=
    wgLookup_filter s.threads _ b tb hb (by simp [hopen_b])
  obtain ⟨hc, hv⟩ := conflictsScan_pair a b ta tb hab
    (s.threads.filter (fun p => p.2.approved = false)) hndf haf hbf
  refine ⟨?_, hv, ?_⟩
  · rw [findConflicts, hc, if_neg hinter]
  · intro c tc hc' happ e he
    have hcnotin : c ∉ (s.threads.filter (fun p => p.2.approved = false)).map Prod.fst := by
      intro hmem
      obtain ⟨p, hp, hfst⟩ := List.mem_map.mp hmem
      obtain ⟨hpmem, hpred⟩ := List.mem_filter.mp hp
      have : wgLookup s.threads c = some p.2 := by
        refine wgLookup_of_mem_nodup s.threads c p.2 ?_ hnd
        have : p = (c, p.2) := by
          rw [← hfst]
        rw [← this]
        exact hpmem
      rw [hc'] at this
      obtain rfl : tc = p.2 := Option.some.inj this
      rw [happ] at hpred
      simp at hpred
    obtain ⟨h1, h2⟩ := conflictsScan_mem_keys _ e he
    exact ⟨fun hcc => hcnotin (hcc ▸ h1), fun hcc => hcnotin (hcc ▸ h2)⟩

theorem conflict_detection_witness :
    (findConflicts sConflict).countP (pairMatches "1" "2") = 1
    ∧ (∀ e ∈ findConflicts sConflict, pairMatches "1" "2" e = true
        → e.2.2 = sortedInter tConflictA.files tConflictB.files)
    ∧ (∀ (c : String) (tc : Thread),
        wgLookup sConflict.threads c = some tc → tc.approved = true →
        ∀ e ∈ findConflicts sConflict, e.1 ≠ c ∧ e.2.1 ≠ c) :=
  conflict_detection sConflict "1" "2" tConflictA tConflictB (by decide) rfl rfl
    (by decide) rfl rfl (by decide)

/-! ## C7: NotFound on operations referencing a missing thread id -/

/-- C7 (amended): for a thread id absent from the channel state,
`_resolve_thread` with an explicit id, `cmd_reply --channel --thread-ts`,
`cmd_sync` and `cmd_approve` all surface NotFound and return no modified
state — but `cmd_reply` reached through the session link performs no
existence check: it succeeds and writes back a freshly synthesized
thread entry (at version 2) under the missing id. -/
theorem thread_not_found (s : ChannelState) (thread_ts myUserId plan : String)
    (files : List String) (reply_ts now : String)
    (h : wgLookup s.threads thread_ts = none) :
    resolveThread s (some thread_ts) myUserId = .error .notFound
    ∧ cmdReplyResolved s thread_ts myUserId plan files reply_ts now = .error .notFound
    ∧ cmdSyncLookup s thread_ts = .error .notFound
    ∧ cmdApproveCore s thread_ts myUserId = .error .notFound
    ∧ cmdReplySession (some s) thread_ts plan files reply_ts now
        = .ok (cmdReplyCore s thread_ts plan files reply_ts now)
    ∧ wgLookup (cmdReplyCore s thread_ts plan files reply_ts now).threads thread_ts
        = some (cmdReplyThread replyMissingThread plan files reply_ts now) := by
  refine ⟨?_, ?_, ?_, ?_, rfl, ?_⟩
  · simp [resolveThread, h]
  · simp [cmdReplyResolved, resolveThread, h]
  · simp [cmdSyncLookup, h]
  · simp [cmdApproveCore, h]
  · simp only [cmdReplyCore, h, Option.getD_none]
    exact wgLookup_insert_self ..

theorem thread_not_found_witness :
    resolveThread sState (some "999.0") "U_ME" = .error .notFound
    ∧ cmdReplyResolved sState "999.0" "U_ME" "p2" [] "200.0" "t2" = .error .notFound
    ∧ cmdSyncLookup sState "999.0" = .error .notFound
    ∧ cmdApproveCore sState "999.0" "U_ME" = .error .notFound
    ∧ cmdReplySession (some sState) "999.0" "p2" [] "200.0" "t2"
        = .ok (cmdReplyCore sState "999.0" "p2" [] "200.0" "t2")
    ∧ wgLookup (cmdReplyCore sState "999.0" "p2" [] "200.0" "t2").threads "999.0"
        = some (cmdReplyThread replyMissingThread "p2" [] "200.0" "t2") :=
  thread_not_found sState "999.0" "U_ME" "p2" [] "200.0" "t2" rfl

/-- C7 counterexample: posting a revision through the session link to the
missing thread id `"999.0"` does not surface NotFound — it returns
success, and the persisted store gains a synthesized `"999.0"` entry at
version 2 (so the operation proceeded as if the thread existed). -/
theorem thread_not_found_counterexample :
    cmdReplySession (some sState) "999.0" "p2" [] "200.0" "t2" ≠ .error .notFound
    ∧ cmdReplySession (some sState) "999.0" "p2" [] "200.0" "t2" =
        .ok { sState with threads :=
          [("111.111", tSample),
           ("999.0", { owner := none, ts := "", version := 2, status := "awaiting_feedback",
                       approved := false, approved_by := none, files := [],
                       plan_versions := [{ version := 2, text := "p2", posted_at := "t2",
                                           ts := some "200.0" }],
                       feedback := [], latest_reply_ts := some "200.0" })] } := by
  constructor
  · intro hc
    exact Except.noConfusion hc
  · rfl

theorem placeholder_backfill_witness :
    wgLookup (handleMessageReply sState "999.0" "200.0" "U_BOB" "Comment" "t1").threads "999.0" =
      some { owner := none, ts := "999.0", version := 1, status := "open",
             approved := false, approved_by := none, files := [], plan_versions := [],
             feedback := [{ user := "U_BOB", ts := "200.0", text := "Comment",
                            received_at := "t1", type := "feedback" }] } :=
  placeholder_backfill sState "999.0" "200.0" "U_BOB" "Comment" "t1" rfl

end ClaudeWg
